import Mathlib

/-!
Verification of the Player_Performance aggregation, reporting and
registration-validation core.

The definitions below are shallow embeddings of the JavaScript source:

* `calculateTeamStats`, `getPerformanceStatus` and the report-row builder come
  from `src/components/coach/CoachDashboard.jsx`;
* `validateForm` comes from the registration form component.

JavaScript numbers are modelled as rationals; a missing (`undefined`) numeric
field is `Option.none` and the JavaScript coercion `x || 0` is `Option.getD 0`.
-/

namespace PlayerPerformance

/-- Snapshot of one player, as read by the dashboard.  String fields model
`undefined` as the empty string (the source immediately coerces them with
`|| ""`); numeric fields model `undefined` as `none`. -/
structure PlayerRecord where
  name : String
  email : String
  sport : String
  currentScore : Option ℚ
  matchCount : Option ℚ
  totalScore : Option ℚ
  averageScore : Option ℚ
  deriving DecidableEq

/-- Team summary computed by `calculateTeamStats`. -/
structure TeamSummary where
  totalPlayers : ℕ
  averageScore : ℚ
  totalMatches : ℚ
  topPerformer : Option PlayerRecord
  deriving DecidableEq

/-- JavaScript `Math.round`: round to the nearest integer, halves toward
positive infinity. -/
def jsMathRound (x : ℚ) : ℤ := ⌊x + 1 / 2⌋

/-- The rounding performed by the source: `Math.round(x * 100) / 100`. -/
def round2 (x : ℚ) : ℚ := (jsMathRound (x * 100) : ℚ) / 100

/-- Round to the nearest integer, halves away from zero.  This is the
rounding mode named by the specification; it is compared with the rounding
the code actually performs. -/
def roundHalfAwayFromZero (x : ℚ) : ℤ :=
  if 0 ≤ x then ⌊x + 1 / 2⌋ else -⌊-x + 1 / 2⌋

/-- Two-decimal rounding as described by the specification: multiply by 100,
round halves away from zero, divide by 100. -/
def round2AwayFromZero (x : ℚ) : ℚ := (roundHalfAwayFromZero (x * 100) : ℚ) / 100

/-- Step function of the `reduce` that selects the top performer in
`calculateTeamStats`: a candidate replaces the current best exactly when its
average score (missing treated as 0) is strictly greater. -/
def pickBetter (top : Option PlayerRecord) (player : PlayerRecord) : Option PlayerRecord :=
  match top with
  | none => some player
  | some t =>
      if t.averageScore.getD 0 < player.averageScore.getD 0 then some player else some t

/-- Embedding of `calculateTeamStats` from `CoachDashboard.jsx`. -/
def calculateTeamStats (playersData : List PlayerRecord) : TeamSummary :=
  if playersData.length = 0 then
    { totalPlayers := 0, averageScore := 0, totalMatches := 0, topPerformer := none }
  else
    let totalPlayers := playersData.length
    let totalMatches :=
      playersData.foldl (fun sum player => sum + player.matchCount.getD 0) (0 : ℚ)
    let totalScore :=
      playersData.foldl (fun sum player => sum + player.totalScore.getD 0) (0 : ℚ)
    let averageScore := if 0 < totalMatches then totalScore / totalMatches else 0
    let topPerformer :=
      (playersData.filter fun player => decide (0 < player.matchCount.getD 0)).foldl
        pickBetter none
    { totalPlayers := totalPlayers
      averageScore := round2 averageScore
      totalMatches := totalMatches
      topPerformer := topPerformer }

/-- Folding addition of a projected field from 0 is summation. -/
lemma foldl_add_eq_sum_map (f : PlayerRecord → ℚ) (l : List PlayerRecord) :
    l.foldl (fun sum p => sum + f p) 0 = (l.map f).sum := by
  suffices h : ∀ a : ℚ, l.foldl (fun sum p => sum + f p) a = a + (l.map f).sum by
    simpa using h 0
  induction l with
  | nil => intro a; simp
  | cons p t ih =>
      intro a
      simp [List.foldl_cons, ih, add_assoc]

/-- The team average the code computes, written with explicit sums. -/
lemma averageScore_formula (l : List PlayerRecord) :
    (calculateTeamStats l).averageScore =
      round2 (if 0 < (l.map fun p => p.matchCount.getD 0).sum then
        (l.map fun p => p.totalScore.getD 0).sum / (l.map fun p => p.matchCount.getD 0).sum
      else 0) := by
  by_cases hl : l.length = 0
  · have hnil : l = [] := List.length_eq_zero.mp hl
    subst hnil
    simp [calculateTeamStats]
    norm_num [round2, jsMathRound]
  · simp [calculateTeamStats, hl, foldl_add_eq_sum_map]

/-- Rounding of zero gives zero. -/
lemma round2_zero : round2 0 = 0 := by
  norm_num [round2, jsMathRound]

/-- On nonnegative input, rounding halves up and rounding halves away from
zero agree. -/
lemma round2_eq_away_of_nonneg (x : ℚ) (hx : 0 ≤ x) :
    round2 x = round2AwayFromZero x := by
  have h : (0 : ℚ) ≤ x * 100 := by positivity
  simp [round2, round2AwayFromZero, jsMathRound, roundHalfAwayFromZero, h]

/-- C1: for a non-empty roster of valid records (match counts and total
scores nonnegative, missing treated as 0), the team average equals the sum of
total scores divided by the sum of match counts, rounded to two decimals with
halves away from zero, whenever the total match count is positive; and it is
exactly 0 when the total match count is 0. -/
theorem aggregate_averageScore (l : List PlayerRecord) (_hne : l ≠ [])
    (_hm : ∀ p ∈ l, 0 ≤ p.matchCount.getD 0) (hs : ∀ p ∈ l, 0 ≤ p.totalScore.getD 0) :
    ((l.map fun p => p.matchCount.getD 0).sum = 0 →
      (calculateTeamStats l).averageScore = 0) ∧
    (0 < (l.map fun p => p.matchCount.getD 0).sum →
      (calculateTeamStats l).averageScore =
        round2AwayFromZero
          ((l.map fun p => p.totalScore.getD 0).sum /
            (l.map fun p => p.matchCount.getD 0).sum)) := by
  constructor
  · intro h0
    rw [averageScore_formula, h0]
    simpa using round2_zero
  · intro h0
    rw [averageScore_formula, if_pos h0]
    refine round2_eq_away_of_nonneg _ (div_nonneg ?_ (le_of_lt h0))
    refine List.sum_nonneg ?_
    intro x hx
    obtain ⟨p, hp, rfl⟩ := List.mem_map.mp hx
    exact hs p hp

/-- Demonstration record: two matches totalling 150 points. -/
def recA : PlayerRecord :=
  { name := "A", email := "a@x.com", sport := "cricket",
    currentScore := some 75, matchCount := some 2,
    totalScore := some 150, averageScore := some 75 }

/-- Witness for C1 on the concrete roster `[recA]`. -/
theorem aggregate_averageScore_witness :
    (calculateTeamStats [recA]).averageScore =
      round2AwayFromZero
        ((([recA] : List PlayerRecord).map fun p => p.totalScore.getD 0).sum /
          (([recA] : List PlayerRecord).map fun p => p.matchCount.getD 0).sum) :=
  (aggregate_averageScore [recA] (by decide) (by decide) (by decide)).2
    (by norm_num [recA])

/-- Invariant of the top-performer fold once the accumulator is `some t`: the
result is the first record of maximal average score among `t` followed by the
remaining list. -/
lemma foldl_pickBetter_spec (l : List PlayerRecord) :
    ∀ t : PlayerRecord,
      ∃ u, l.foldl pickBetter (some t) = some u ∧
        (∀ p ∈ l, p.averageScore.getD 0 ≤ u.averageScore.getD 0) ∧
        t.averageScore.getD 0 ≤ u.averageScore.getD 0 ∧
        (u = t ∨ ∃ pre post, l = pre ++ u :: post ∧
          t.averageScore.getD 0 < u.averageScore.getD 0 ∧
          ∀ p ∈ pre, p.averageScore.getD 0 < u.averageScore.getD 0) := by
  induction l with
  | nil =>
      intro t
      exact ⟨t, rfl, by simp, le_refl _, Or.inl rfl⟩
  | cons q rest ih =>
      intro t
      by_cases hq : t.averageScore.getD 0 < q.averageScore.getD 0
      · have hfold : (q :: rest).foldl pickBetter (some t) = rest.foldl pickBetter (some q) := by
          simp [List.foldl_cons, pickBetter, hq]
        obtain ⟨u, hu, hall, hle, hfirst⟩ := ih q
        refine ⟨u, by rw [hfold]; exact hu, ?_, le_trans (le_of_lt hq) hle, ?_⟩
        · intro p hp
          rcases List.mem_cons.mp hp with rfl | hp'
          · exact hle
          · exact hall p hp'
        · rcases hfirst with rfl | ⟨pre, post, hsplit, hlt, hpre⟩
          · exact Or.inr ⟨[], rest, by simp, hq, by simp⟩
          · refine Or.inr ⟨q :: pre, post, by simp [hsplit], lt_trans hq hlt, ?_⟩
            intro p hp
            rcases List.mem_cons.mp hp with rfl | hp'
            · exact hlt
            · exact hpre p hp'
      · have hfold : (q :: rest).foldl pickBetter (some t) = rest.foldl pickBetter (some t) := by
          simp [List.foldl_cons, pickBetter, hq]
        obtain ⟨u, hu, hall, hle, hfirst⟩ := ih t
        refine ⟨u, by rw [hfold]; exact hu, ?_, hle, ?_⟩
        · intro p hp
          rcases List.mem_cons.mp hp with rfl | hp'
          · exact le_trans (le_of_not_lt hq) hle
          · exact hall p hp'
        · rcases hfirst with rfl | ⟨pre, post, hsplit, hlt, hpre⟩
          · exact Or.inl rfl
          · refine Or.inr ⟨q :: pre, post, by simp [hsplit], hlt, ?_⟩
            intro p hp
            rcases List.mem_cons.mp hp with rfl | hp'
            · exact lt_of_le_of_lt (le_of_not_lt hq) hlt
            · exact hpre p hp'

/-- The top performer selected by the code, as the fold over the filtered
roster. -/
lemma topPerformer_eq_foldl (l : List PlayerRecord) :
    (calculateTeamStats l).topPerformer =
      (l.filter fun p => decide (0 < p.matchCount.getD 0)).foldl pickBetter none := by
  by_cases hl : l.length = 0
  · have hnil : l = [] := List.length_eq_zero.mp hl
    subst hnil
    simp [calculateTeamStats]
  · simp [calculateTeamStats, hl]

/-- C2: the top performer is absent exactly when no record has a positive
match count; and when present it is a qualifying record of maximal average
score, the earliest such record in filtered input order (ties keep the
earlier record). -/
theorem aggregate_topPerformer (l : List PlayerRecord) :
    ((calculateTeamStats l).topPerformer = none ↔
      ∀ p ∈ l, ¬ (0 < p.matchCount.getD 0)) ∧
    (∀ t, (calculateTeamStats l).topPerformer = some t →
      ∃ pre post,
        l.filter (fun p => decide (0 < p.matchCount.getD 0)) = pre ++ t :: post ∧
        (∀ p ∈ pre, p.averageScore.getD 0 < t.averageScore.getD 0) ∧
        (∀ p ∈ l, 0 < p.matchCount.getD 0 →
          p.averageScore.getD 0 ≤ t.averageScore.getD 0)) := by
  rw [topPerformer_eq_foldl]
  rcases hF : l.filter (fun p => decide (0 < p.matchCount.getD 0)) with _ | ⟨q, rest⟩
  · rw [hF]
    constructor
    · constructor
      · intro _ p hp hpos
        have hmem : p ∈ l.filter (fun p => decide (0 < p.matchCount.getD 0)) :=
          List.mem_filter.mpr ⟨hp, by simpa using hpos⟩
        rw [hF] at hmem
        simp at hmem
      · intro _; rfl
    · intro t ht
      simp at ht
  · rw [hF]
    obtain ⟨u, hu, hall, hle, hfirst⟩ := foldl_pickBetter_spec rest q
    have hfold : (q :: rest).foldl pickBetter none = some u := by
      simpa [List.foldl_cons, pickBetter] using hu
    rw [hfold]
    constructor
    · constructor
      · intro h; exact absurd h (by simp)
      · intro h
        have hq : q ∈ l.filter (fun p => decide (0 < p.matchCount.getD 0)) := by
          rw [hF]; exact List.mem_cons_self _ _
        have := List.mem_filter.mp hq
        exact absurd (by simpa using this.2) (by simpa using h q this.1)
    · intro t ht
      have hut : u = t := by simpa using ht
      subst hut
      have hmax : ∀ p ∈ l, 0 < p.matchCount.getD 0 →
          p.averageScore.getD 0 ≤ u.averageScore.getD 0 := by
        intro p hp hpos
        have hmem : p ∈ l.filter (fun p => decide (0 < p.matchCount.getD 0)) :=
          List.mem_filter.mpr ⟨hp, by simpa using hpos⟩
        rw [hF] at hmem
        rcases List.mem_cons.mp hmem with rfl | hmem'
        · exact hle
        · exact hall p hmem'
      rcases hfirst with rfl | ⟨pre, post, hsplit, hlt, hpre⟩
      · exact ⟨[], rest, by simp [hF], by simp, hmax⟩
      · refine ⟨q :: pre, post, by simp [hF, hsplit], ?_, hmax⟩
        intro p hp
        rcases List.mem_cons.mp hp with rfl | hp'
        · exact hlt
        · exact hpre p hp'

/-- Demonstration record with no matches and a high average. -/
def recZero : PlayerRecord :=
  { name := "Z", email := "z@x.com", sport := "football",
    currentScore := some 99, matchCount := some 0,
    totalScore := some 0, averageScore := some 99 }

/-- Demonstration record: first of a tie at average 70. -/
def recT1 : PlayerRecord :=
  { name := "T1", email := "t1@x.com", sport := "cricket",
    currentScore := some 70, matchCount := some 1,
    totalScore := some 70, averageScore := some 70 }

/-- Demonstration record: second of a tie at average 70. -/
def recT2 : PlayerRecord :=
  { name := "T2", email := "t2@x.com", sport := "cricket",
    currentScore := some 70, matchCount := some 1,
    totalScore := some 70, averageScore := some 70 }

/-- Demonstration record with a lower average. -/
def recT3 : PlayerRecord :=
  { name := "T3", email := "t3@x.com", sport := "basketball",
    currentScore := some 50, matchCount := some 2,
    totalScore := some 100, averageScore := some 50 }

/-- Witness for C2 on a roster with a tie: the earlier tied record wins. -/
theorem aggregate_topPerformer_witness :
    ∃ pre post,
      ([recZero, recT1, recT2, recT3] : List PlayerRecord).filter
          (fun p => decide (0 < p.matchCount.getD 0)) = pre ++ recT1 :: post ∧
      (∀ p ∈ pre, p.averageScore.getD 0 < recT1.averageScore.getD 0) ∧
      (∀ p ∈ ([recZero, recT1, recT2, recT3] : List PlayerRecord),
        0 < p.matchCount.getD 0 →
          p.averageScore.getD 0 ≤ recT1.averageScore.getD 0) :=
  (aggregate_topPerformer [recZero, recT1, recT2, recT3]).2 recT1 (by decide)

/-- Filtering away records whose projected field is zero does not change the
sum of that projection. -/
lemma sum_map_filter_eq (f : PlayerRecord → ℚ) (keep : PlayerRecord → Bool)
    (l : List PlayerRecord) (h : ∀ p ∈ l, keep p = false → f p = 0) :
    ((l.filter keep).map f).sum = (l.map f).sum := by
  induction l with
  | nil => simp
  | cons p t ih =>
      have ht : ∀ p' ∈ t, keep p' = false → f p' = 0 :=
        fun p' hp' => h p' (List.mem_cons_of_mem _ hp')
      cases hk : keep p
      · simp [List.filter_cons, hk, ih ht, h p (List.mem_cons_self _ _) hk]
      · simp [List.filter_cons, hk, ih ht]

/-- Counterexample input for C3: a record with two matches and total score
100. -/
def cexA : PlayerRecord :=
  { name := "A", email := "a@x.com", sport := "cricket",
    currentScore := some 50, matchCount := some 2,
    totalScore := some 100, averageScore := some 50 }

/-- Counterexample input for C3: a record with zero matches but a nonzero
stored total score. -/
def cexB : PlayerRecord :=
  { name := "B", email := "b@x.com", sport := "football",
    currentScore := some 0, matchCount := some 0,
    totalScore := some 50, averageScore := some 0 }

/-- C3 counterexample: removing the records with `matchCount == 0` from the
roster `[cexA, cexB]` changes the team average (75 becomes 50), because the
code sums `totalScore` over all records, qualifying or not. -/
theorem aggregate_drop_zeroMatch_cex :
    ¬ ((calculateTeamStats (([cexA, cexB] : List PlayerRecord).filter
          fun p => decide (p.matchCount.getD 0 ≠ 0))).averageScore
        = (calculateTeamStats [cexA, cexB]).averageScore) := by
  have h1 : (([cexA, cexB] : List PlayerRecord).filter
      fun p => decide (p.matchCount.getD 0 ≠ 0)) = [cexA] := by decide
  rw [h1, averageScore_formula, averageScore_formula]
  norm_num [cexA, cexB, round2, jsMathRound]

/-- C3 amended: a record with `matchCount == 0` whose stored `totalScore`
(missing treated as 0) is also 0 contributes zero weight: if every
zero-match record has zero total score, removing all zero-match records
leaves the team average unchanged. -/
theorem aggregate_drop_zeroMatch (l : List PlayerRecord)
    (h : ∀ p ∈ l, p.matchCount.getD 0 = 0 → p.totalScore.getD 0 = 0) :
    (calculateTeamStats (l.filter fun p => decide (p.matchCount.getD 0 ≠ 0))).averageScore
      = (calculateTeamStats l).averageScore := by
  have hM : ((l.filter fun p => decide (p.matchCount.getD 0 ≠ 0)).map
      fun p => p.matchCount.getD 0).sum = (l.map fun p => p.matchCount.getD 0).sum := by
    refine sum_map_filter_eq _ _ _ ?_
    intro p _ hk
    simpa using of_decide_eq_false hk
  have hS : ((l.filter fun p => decide (p.matchCount.getD 0 ≠ 0)).map
      fun p => p.totalScore.getD 0).sum = (l.map fun p => p.totalScore.getD 0).sum := by
    refine sum_map_filter_eq _ _ _ ?_
    intro p hp hk
    exact h p hp (by simpa using of_decide_eq_false hk)
  rw [averageScore_formula, averageScore_formula, hM, hS]

/-- Witness record for the amended C3: zero matches and zero total score. -/
def cexB0 : PlayerRecord :=
  { name := "B", email := "b@x.com", sport := "football",
    currentScore := some 0, matchCount := some 0,
    totalScore := some 0, averageScore := some 0 }

/-- Witness for the amended C3 on the concrete roster `[cexA, cexB0]`. -/
theorem aggregate_drop_zeroMatch_witness :
    (calculateTeamStats (([cexA, cexB0] : List PlayerRecord).filter
        fun p => decide (p.matchCount.getD 0 ≠ 0))).averageScore
      = (calculateTeamStats [cexA, cexB0]).averageScore :=
  aggregate_drop_zeroMatch [cexA, cexB0] (by decide)

/-- Embedding of `getPerformanceStatus` from `CoachDashboard.jsx`. -/
def getPerformanceStatus (score : ℚ) : String :=
  if 80 ≤ score then "Excellent"
  else if 60 ≤ score then "Good"
  else "Needs Improvement"

/-- Qualitative tier of the classification utility, as named by the
specification. -/
inductive Tier where
  | excellent
  | good
  | needsImprovement
  deriving DecidableEq

/-- Tier classification with the fixed thresholds of the specification
(inclusive lower bounds, no clamping). -/
def classifyTier (score : ℚ) : Tier :=
  if 80 ≤ score then Tier.excellent
  else if 60 ≤ score then Tier.good
  else Tier.needsImprovement

/-- Display label of each tier. -/
def displayLabel : Tier → String
  | Tier.excellent => "Excellent"
  | Tier.good => "Good"
  | Tier.needsImprovement => "Needs Improvement"

/-- Doubling of internal double quotes, the `replace` call of the source
escaping code. -/
def escChars : List Char → List Char
  | [] => []
  | c :: cs => if c = '"' then '"' :: '"' :: escChars cs else c :: escChars cs

/-- Embedding of the cell-escaping step of `handleExportReport`: quote and
double internal quotes when the cell contains a comma, a double quote or a
newline; otherwise emit the cell verbatim. -/
def escapeCell (cell : String) : String :=
  if cell.data.contains ',' || cell.data.contains '"' || cell.data.contains '\n' then
    "\"" ++ String.mk (escChars cell.data) ++ "\""
  else cell

/-- JavaScript `Array.prototype.join` with the given separator. -/
def joinWith (sep : String) : List String → String
  | [] => ""
  | [cell] => cell
  | cell :: rest => cell ++ sep ++ joinWith sep rest

/-- One output line: escaped cells joined with commas. -/
def serializeRow (row : List String) : String := joinWith "," (row.map escapeCell)

/-- The whole document: rows joined with newlines. -/
def serializeDoc (rows : List (List String)) : String :=
  joinWith "\n" (rows.map serializeRow)

/-- Column header row of the export, from `handleExportReport`. -/
def csvHeaders : List String :=
  ["Player Name", "Email", "Sport", "Current Score (%)", "Performance Status",
   "Total Matches", "Average Score"]

/-- One data row per player, from `handleExportReport`.  `numStr` is the
JavaScript number-to-string conversion, kept abstract. -/
def playerRow (numStr : ℚ → String) (player : PlayerRecord) : List String :=
  [player.name, player.email, player.sport,
   numStr (player.currentScore.getD 0),
   getPerformanceStatus (player.currentScore.getD 0),
   numStr (player.matchCount.getD 0),
   numStr (player.averageScore.getD 0)]

/-- The top-performer summary cell: the name, or the literal N/A when the
performer is absent or its name is empty (the source coerces with `|| 'N/A'`). -/
def topPerformerCell (stats : TeamSummary) : String :=
  match stats.topPerformer with
  | some t => if t.name = "" then "N/A" else t.name
  | none => "N/A"

/-- All logical rows of the exported report, in the order built by
`handleExportReport`: the summary rows, then the column headers, then one
data row per player in input order. -/
def reportRows (coachName reportDate : String) (stats : TeamSummary)
    (players : List PlayerRecord) (numStr : ℚ → String) : List (List String) :=
  [["Team Performance Report"],
   ["Coach Name", coachName],
   ["Report Date", reportDate],
   [""],
   ["Team Statistics"],
   ["Total Players", numStr (stats.totalPlayers : ℚ)],
   ["Team Average Score", numStr stats.averageScore ++ "%"],
   ["Total Matches", numStr stats.totalMatches],
   ["Top Performer", topPerformerCell stats],
   [""],
   ["Player Details"],
   csvHeaders] ++ players.map (playerRow numStr)

/-- Splitting a character list at commas; the parser used to read a row of
unquoted cells back. -/
def splitCommaChars : List Char → List (List Char)
  | [] => [[]]
  | c :: rest =>
      if c = ',' then [] :: splitCommaChars rest
      else
        match splitCommaChars rest with
        | [] => [[c]]
        | cell :: cells => (c :: cell) :: cells

/-- Parsing the cells of one serialized row of unquoted cells. -/
def parseCells (s : String) : List String := (splitCommaChars s.data).map String.mk

/-- The escaping recursion doubles exactly the double-quote characters. -/
lemma escChars_eq_flatMap (l : List Char) :
    escChars l = l.flatMap fun c => if c = '"' then ['"', '"'] else [c] := by
  induction l with
  | nil => simp [escChars]
  | cons c cs ih =>
      by_cases hc : c = '"'
      · simp [escChars, hc, ih]
      · simp [escChars, hc, ih]

/-- The quoting condition of `escapeCell` holds exactly when the cell
contains a comma, a double quote or a newline. -/
lemma escapeCell_cond (s : String) :
    (s.data.contains ',' || s.data.contains '"' || s.data.contains '\n') = true ↔
      ∃ c ∈ s.data, c = ',' ∨ c = '"' ∨ c = '\n' := by
  simp only [Bool.or_eq_true, List.elem_iff]
  constructor
  · rintro ((h | h) | h)
    · exact ⟨',', h, Or.inl rfl⟩
    · exact ⟨'"', h, Or.inr (Or.inl rfl)⟩
    · exact ⟨'\n', h, Or.inr (Or.inr rfl)⟩
  · rintro ⟨c, hc, rfl | rfl | rfl⟩
    · exact Or.inl (Or.inl hc)
    · exact Or.inl (Or.inr hc)
    · exact Or.inr hc

/-- Demonstration record whose name contains a comma. -/
def doeRec : PlayerRecord :=
  { name := "Doe, John", email := "doe@x.com", sport := "cricket",
    currentScore := some 70, matchCount := some 3,
    totalScore := some 210, averageScore := some 70 }

/-- Demonstration record whose name contains double quotes. -/
def quoteRec : PlayerRecord :=
  { name := "He said \"hi\"", email := "h@x.com", sport := "football",
    currentScore := some 50, matchCount := some 1,
    totalScore := some 50, averageScore := some 50 }

/-- C4: a cell is wrapped in double quotes with internal quotes doubled
exactly when it contains a comma, a double quote or a newline, and is emitted
verbatim otherwise; rows are joined with commas and newlines; the two sample
names appear in their data rows in the escaped forms the specification
gives. -/
theorem csv_escaping :
    (∀ s : String, (∃ c ∈ s.data, c = ',' ∨ c = '"' ∨ c = '\n') →
      (escapeCell s).data =
        '"' :: (s.data.flatMap fun c => if c = '"' then ['"', '"'] else [c]) ++ ['"']) ∧
    (∀ s : String, (¬ ∃ c ∈ s.data, c = ',' ∨ c = '"' ∨ c = '\n') → escapeCell s = s) ∧
    (∀ rows : List (List String),
      serializeDoc rows =
        joinWith "\n" (rows.map fun row => joinWith "," (row.map escapeCell))) ∧
    (∀ numStr : ℚ → String,
      (∃ rest, serializeRow (playerRow numStr doeRec) = "\"Doe, John\"," ++ rest) ∧
      (∃ rest, serializeRow (playerRow numStr quoteRec) =
        "\"He said \"\"hi\"\"\"," ++ rest)) := by
  refine ⟨?_, ?_, ?_, ?_⟩
  · intro s h
    have hcond := (escapeCell_cond s).mpr h
    rw [escapeCell, if_pos hcond, String.data_append, String.data_append,
      escChars_eq_flatMap]
    rfl
  · intro s h
    have hcond : (s.data.contains ',' || s.data.contains '"' || s.data.contains '\n') = false := by
      rcases hb : (s.data.contains ',' || s.data.contains '"' || s.data.contains '\n') with _ | _
      · rfl
      · exact absurd ((escapeCell_cond s).mp hb) h
    have hcond' :
        ¬ ((s.data.contains ',' || s.data.contains '"' || s.data.contains '\n') = true) := by
      rw [hcond]; simp
    rw [escapeCell, if_neg hcond']
  · intro rows
    rfl
  · intro numStr
    constructor
    · refine ⟨serializeRow (playerRow numStr doeRec).tail, ?_⟩
      have h0 : serializeRow (playerRow numStr doeRec) =
          escapeCell "Doe, John" ++ "," ++ serializeRow (playerRow numStr doeRec).tail := rfl
      have e1 : escapeCell "Doe, John" = "\"Doe, John\"" := by decide
      have e2 : ("\"Doe, John\"" ++ "," : String) = "\"Doe, John\"," := by decide
      rw [h0, e1, e2]
    · refine ⟨serializeRow (playerRow numStr quoteRec).tail, ?_⟩
      have h0 : serializeRow (playerRow numStr quoteRec) =
          escapeCell "He said \"hi\"" ++ "," ++ serializeRow (playerRow numStr quoteRec).tail := rfl
      have e1 : escapeCell "He said \"hi\"" = "\"He said \"\"hi\"\"\"" := by decide
      have e2 : ("\"He said \"\"hi\"\"\"" ++ "," : String) = "\"He said \"\"hi\"\"\"," := by decide
      rw [h0, e1, e2]

/-- Witness for C4: the quoting branch evaluated on the concrete cell a,b. -/
theorem csv_escaping_witness :
    (escapeCell "a,b").data =
      '"' :: (("a,b" : String).data.flatMap fun c => if c = '"' then ['"', '"'] else [c])
        ++ ['"'] :=
  csv_escaping.1 "a,b" ⟨',', by decide, Or.inl rfl⟩

/-- C5: the report consists of the fixed summary rows, then the column
header row, then one data row per record in input order; and parsing the
serialized column-header row recovers exactly the seven documented column
names. -/
theorem report_structure (coachName reportDate : String) (stats : TeamSummary)
    (players : List PlayerRecord) (numStr : ℚ → String) :
    reportRows coachName reportDate stats players numStr =
      [["Team Performance Report"],
       ["Coach Name", coachName],
       ["Report Date", reportDate],
       [""],
       ["Team Statistics"],
       ["Total Players", numStr (stats.totalPlayers : ℚ)],
       ["Team Average Score", numStr stats.averageScore ++ "%"],
       ["Total Matches", numStr stats.totalMatches],
       ["Top Performer", topPerformerCell stats],
       [""],
       ["Player Details"],
       csvHeaders] ++ players.map (playerRow numStr) ∧
    parseCells (serializeRow csvHeaders) =
      ["Player Name", "Email", "Sport", "Current Score (%)", "Performance Status",
       "Total Matches", "Average Score"] :=
  ⟨rfl, by decide⟩

/-- C6: the classification has inclusive lower bounds at 80 and 60 with no
clamping, `getPerformanceStatus` is the display label of the tier, and every
data row carries the label computed from the currentScore of the record
(missing treated as 0) at cell index 4. -/
theorem classify_status (score : ℚ) :
    (classifyTier score = Tier.excellent ↔ 80 ≤ score) ∧
    (classifyTier score = Tier.good ↔ 60 ≤ score ∧ score < 80) ∧
    (classifyTier score = Tier.needsImprovement ↔ score < 60) ∧
    getPerformanceStatus score = displayLabel (classifyTier score) ∧
    (∀ (numStr : ℚ → String) (p : PlayerRecord),
      (playerRow numStr p).get? 4 =
        some (getPerformanceStatus (p.currentScore.getD 0))) := by
  refine ⟨?_, ?_, ?_, ?_, ?_⟩
  · unfold classifyTier
    split_ifs with h80 h60
    · simp [h80]
    · simp [h80]
    · simp [h80]
  · unfold classifyTier
    split_ifs with h80 h60
    · simp [not_lt.mpr h80]
    · simp [h60, not_le.mp h80]
    · simp [h60]
  · unfold classifyTier
    split_ifs with h80 h60
    · simp [not_lt.mpr (le_trans (show (60 : ℚ) ≤ 80 by norm_num) h80)]
    · simp [not_lt.mpr h60]
    · simp [not_le.mp h60]
  · unfold classifyTier getPerformanceStatus
    split_ifs <;> rfl
  · intro numStr p
    rfl

/-- JavaScript whitespace class: the characters matched by the regex class
backslash-s and removed by `String.prototype.trim`. -/
def jsIsSpace (c : Char) : Bool :=
  c = ' ' || c = '\t' || c = '\n' || c = '\r' || c = '\x0b' || c = '\x0c' ||
  c = '\u00A0' || c = '\u1680' ||
  (decide ('\u2000' ≤ c) && decide (c ≤ '\u200A')) ||
  c = '\u2028' || c = '\u2029' || c = '\u202F' || c = '\u205F' ||
  c = '\u3000' || c = '\uFEFF'

/-- Character class of the regex token backslash-S: any non-whitespace
character. -/
def nonWS (c : Char) : Bool := !(jsIsSpace c)

/-- JavaScript `String.prototype.trim`. -/
def trimJS (s : String) : String :=
  String.mk ((s.data.dropWhile jsIsSpace).reverse.dropWhile jsIsSpace).reverse

/-- Matcher step for the regex suffix: does the list begin with a possibly
empty run of non-whitespace characters, then a dot followed by a
non-whitespace character? -/
def matchDot : List Char → Bool
  | c :: c2 :: rest => (decide (c = '.') && nonWS c2) || (nonWS c && matchDot (c2 :: rest))
  | _ => false

/-- Matcher for a non-empty non-whitespace run followed by a dot and a
non-whitespace character. -/
def matchTail : List Char → Bool
  | c :: rest => nonWS c && matchDot rest
  | [] => false

/-- Matcher for an occurrence of the email pattern anchored at the current
position: a non-whitespace character, an at sign, then `matchTail`. -/
def matchHere : List Char → Bool
  | c1 :: c :: rest => decide (c = '@') && nonWS c1 && matchTail rest
  | _ => false

/-- Search semantics of the unanchored email regex test of the source: the
pattern may match at any position. -/
def emailSearch : List Char → Bool
  | [] => false
  | c :: rest => matchHere (c :: rest) || emailSearch rest

/-- A token of the pattern: at least one non-whitespace character. -/
def tokenChars (l : List Char) : Prop := l ≠ [] ∧ ∀ c ∈ l, nonWS c = true

/-- The claim reading of the email pattern: the entire value is
token at-sign token dot token. -/
def wholeEmailPattern (l : List Char) : Prop :=
  ∃ t1 t2 t3, tokenChars t1 ∧ tokenChars t2 ∧ tokenChars t3 ∧
    l = t1 ++ '@' :: (t2 ++ '.' :: t3)

/-- Search reading of the email pattern: some substring is
token at-sign token dot token. -/
def substringEmailPattern (l : List Char) : Prop :=
  ∃ a m b, l = a ++ m ++ b ∧ wholeEmailPattern m

/-- Candidate registration input of the form component.  An unset `role` or
`sport` is the empty string, exactly as in the source state object. -/
structure RegistrationCandidate where
  name : String
  email : String
  password : String
  confirmPassword : String
  role : String
  sport : String
  deriving DecidableEq

/-- Field-level validation errors; `none` means the field is valid. -/
structure ValidationErrors where
  name : Option String
  email : Option String
  password : Option String
  confirmPassword : Option String
  role : Option String
  sport : Option String
  deriving DecidableEq

/-- The empty validation result: overall acceptance. -/
def noErrors : ValidationErrors :=
  { name := none, email := none, password := none,
    confirmPassword := none, role := none, sport := none }

/-- Embedding of `validateForm` from the registration form component.  Every
rule is evaluated; each field of the result reflects its own checks only. -/
def validateForm (formData : RegistrationCandidate) : ValidationErrors :=
  { name :=
      if trimJS formData.name = "" then some "Full name is required"
      else if (trimJS formData.name).length < 2 then
        some "Name must be at least 2 characters long"
      else none
    email :=
      if trimJS formData.email = "" then some "Email is required"
      else if emailSearch formData.email.data then none
      else some "Please enter a valid email address"
    password :=
      if formData.password = "" then some "Password is required"
      else if formData.password.length < 6 then
        some "Password must be at least 6 characters long"
      else none
    confirmPassword :=
      if formData.confirmPassword = "" then some "Please confirm your password"
      else if formData.password ≠ formData.confirmPassword then
        some "Passwords do not match"
      else none
    role := if formData.role = "" then some "Please select your role" else none
    sport :=
      if formData.role = "player" ∧ formData.sport = "" then
        some "Please select your sport"
      else none }

/-- Characterization of `matchDot`: the list is a possibly empty
non-whitespace run, a dot, and a non-whitespace character, followed by
anything. -/
lemma matchDot_iff (l : List Char) :
    matchDot l = true ↔
      ∃ u c2 v, l = u ++ '.' :: c2 :: v ∧ (∀ c ∈ u, nonWS c = true) ∧ nonWS c2 = true := by
  induction l with
  | nil =>
      constructor
      · intro h; exact Bool.noConfusion h
      · rintro ⟨u, c2, v, h, -, -⟩
        have := congrArg List.length h
        simp [List.length_append] at this
        omega
  | cons c rest ih =>
      cases rest with
      | nil =>
          constructor
          · intro h; exact Bool.noConfusion h
          · rintro ⟨u, c2, v, h, -, -⟩
            have := congrArg List.length h
            simp [List.length_append] at this
            omega
      | cons c2 rest2 =>
          rw [show matchDot (c :: c2 :: rest2) =
            ((decide (c = '.') && nonWS c2) || (nonWS c && matchDot (c2 :: rest2))) from rfl]
          simp only [Bool.or_eq_true, Bool.and_eq_true, decide_eq_true_eq]
          constructor
          · rintro (⟨rfl, h2⟩ | ⟨h1, h2⟩)
            · exact ⟨[], c2, rest2, rfl, by simp, h2⟩
            · obtain ⟨u, c2', v, hsplit, hu, hc2⟩ := ih.mp h2
              refine ⟨c :: u, c2', v, by simp [hsplit], ?_, hc2⟩
              intro x hx
              rcases List.mem_cons.mp hx with rfl | hx'
              · exact h1
              · exact hu x hx'
          · rintro ⟨u, c2', v, hsplit, hu, hc2⟩
            cases u with
            | nil =>
                simp only [List.nil_append, List.cons.injEq] at hsplit
                obtain ⟨rfl, rfl, rfl⟩ := hsplit
                exact Or.inl ⟨rfl, hc2⟩
            | cons d u' =>
                simp only [List.cons_append, List.cons.injEq] at hsplit
                obtain ⟨rfl, hsplit2⟩ := hsplit
                refine Or.inr ⟨hu c (List.mem_cons_self _ _), ?_⟩
                exact ih.mpr ⟨u', c2', v, hsplit2, fun x hx => hu x (List.mem_cons_of_mem _ hx), hc2⟩

/-- Characterization of `matchTail`: a non-empty non-whitespace run, a dot,
and a non-whitespace character, followed by anything. -/
lemma matchTail_iff (l : List Char) :
    matchTail l = true ↔
      ∃ t2 c2 v, l = t2 ++ '.' :: c2 :: v ∧ t2 ≠ [] ∧
        (∀ c ∈ t2, nonWS c = true) ∧ nonWS c2 = true := by
  cases l with
  | nil =>
      constructor
      · intro h; exact Bool.noConfusion h
      · rintro ⟨t2, c2, v, h, -, -, -⟩
        have := congrArg List.length h
        simp [List.length_append] at this
        omega
  | cons c rest =>
      rw [show matchTail (c :: rest) = (nonWS c && matchDot rest) from rfl]
      simp only [Bool.and_eq_true, matchDot_iff]
      constructor
      · rintro ⟨h1, u, c2, v, hsplit, hu, hc2⟩
        refine ⟨c :: u, c2, v, by simp [hsplit], by simp, ?_, hc2⟩
        intro x hx
        rcases List.mem_cons.mp hx with rfl | hx'
        · exact h1
        · exact hu x hx'
      · rintro ⟨t2, c2, v, hsplit, ht2, hall, hc2⟩
        cases t2 with
        | nil => exact absurd rfl ht2
        | cons d u =>
            simp only [List.cons_append, List.cons.injEq] at hsplit
            obtain ⟨rfl, hsplit2⟩ := hsplit
            exact ⟨hall c (List.mem_cons_self _ _),
              u, c2, v, hsplit2, fun x hx => hall x (List.mem_cons_of_mem _ hx), hc2⟩

/-- Characterization of `matchHere`: the list begins with one occurrence of
the email pattern. -/
lemma matchHere_iff (l : List Char) :
    matchHere l = true ↔
      ∃ c1 t2 c2 v, l = c1 :: '@' :: (t2 ++ '.' :: c2 :: v) ∧ nonWS c1 = true ∧
        t2 ≠ [] ∧ (∀ c ∈ t2, nonWS c = true) ∧ nonWS c2 = true := by
  cases l with
  | nil =>
      constructor
      · intro h; exact Bool.noConfusion h
      · rintro ⟨c1, t2, c2, v, h, -⟩
        exact absurd h (by simp)
  | cons c1 rest =>
      cases rest with
      | nil =>
          constructor
          · intro h; exact Bool.noConfusion h
          · rintro ⟨c1', t2, c2, v, h, -⟩
            simp only [List.cons.injEq] at h
            exact absurd h.2 (by simp)
      | cons c rest2 =>
          rw [show matchHere (c1 :: c :: rest2) =
            (decide (c = '@') && nonWS c1 && matchTail rest2) from rfl]
          simp only [Bool.and_eq_true, decide_eq_true_eq, matchTail_iff]
          constructor
          · rintro ⟨⟨rfl, h1⟩, t2, c2, v, hsplit, ht2, hall, hc2⟩
            exact ⟨c1, t2, c2, v, by simp [hsplit], h1, ht2, hall, hc2⟩
          · rintro ⟨c1', t2, c2, v, hsplit, h1, ht2, hall, hc2⟩
            simp only [List.cons.injEq] at hsplit
            obtain ⟨rfl, rfl, rfl⟩ := hsplit
            exact ⟨⟨rfl, h1⟩, t2, c2, v, rfl, ht2, hall, hc2⟩

/-- Characterization of `emailSearch`: the pattern matches at some
position. -/
lemma emailSearch_iff (l : List Char) :
    emailSearch l = true ↔ ∃ a r, l = a ++ r ∧ matchHere r = true := by
  induction l with
  | nil =>
      constructor
      · intro h; exact Bool.noConfusion h
      · rintro ⟨a, r, h, hr⟩
        obtain ⟨ha, hb⟩ := List.append_eq_nil.mp h.symm
        subst hb
        exact Bool.noConfusion hr
  | cons c rest ih =>
      rw [show emailSearch (c :: rest) = (matchHere (c :: rest) || emailSearch rest) from rfl]
      simp only [Bool.or_eq_true, ih]
      constructor
      · rintro (h | ⟨a, r, hsplit, hr⟩)
        · exact ⟨[], c :: rest, rfl, h⟩
        · exact ⟨c :: a, r, by simp [hsplit], hr⟩
      · rintro ⟨a, r, hsplit, hr⟩
        cases a with
        | nil =>
            simp only [List.nil_append] at hsplit
            exact Or.inl (by rw [hsplit]; exact hr)
        | cons d a' =>
            simp only [List.cons_append, List.cons.injEq] at hsplit
            exact Or.inr ⟨a', r, hsplit.2, hr⟩

/-- The executable search agrees with the declarative substring reading of
the email pattern. -/
lemma emailSearch_iff_substring (l : List Char) :
    emailSearch l = true ↔ substringEmailPattern l := by
  rw [emailSearch_iff]
  constructor
  · rintro ⟨a, r, hsplit, hr⟩
    obtain ⟨c1, t2, c2, v, hrsplit, h1, ht2, hall, hc2⟩ := (matchHere_iff r).mp hr
    refine ⟨a, [c1] ++ '@' :: (t2 ++ '.' :: [c2]), v, ?_, [c1], t2, [c2],
      ⟨by simp, by simpa using h1⟩, ⟨ht2, hall⟩, ⟨by simp, by simpa using hc2⟩, rfl⟩
    rw [hsplit, hrsplit]
    simp
  · rintro ⟨a, m, b, hsplit, t1, t2, t3, ⟨ht1ne, ht1⟩, ⟨ht2ne, ht2⟩, ⟨ht3ne, ht3⟩, hm⟩
    cases t3 with
    | nil => exact absurd rfl ht3ne
    | cons c3 t3' =>
        have ht1' := List.dropLast_append_getLast ht1ne
        refine ⟨a ++ t1.dropLast,
          t1.getLast ht1ne :: '@' :: (t2 ++ '.' :: c3 :: (t3' ++ b)), ?_, ?_⟩
        · rw [hsplit, hm]
          conv_lhs => rw [← ht1']
          simp [List.append_assoc]
        · rw [matchHere_iff]
          exact ⟨t1.getLast ht1ne, t2, c3, t3' ++ b, rfl,
            ht1 _ (List.getLast_mem ht1ne), ht2ne, ht2,
            ht3 c3 (List.mem_cons_self _ _)⟩

/-- Trimming a string of whitespace characters only yields the empty
string. -/
lemma trimJS_eq_empty_of_all_space (s : String)
    (h : ∀ c ∈ s.data, jsIsSpace c = true) : trimJS s = "" := by
  unfold trimJS
  rw [List.dropWhile_eq_nil_iff.mpr h]
  rfl

/-- Every character of a list satisfying the whole-value email pattern is a
non-whitespace character. -/
lemma wholeEmailPattern_all_nonWS {l : List Char} (h : wholeEmailPattern l) :
    ∀ c ∈ l, nonWS c = true := by
  obtain ⟨t1, t2, t3, ⟨-, h1⟩, ⟨-, h2⟩, ⟨-, h3⟩, rfl⟩ := h
  intro c hc
  simp only [List.mem_append, List.mem_cons] at hc
  rcases hc with h | rfl | h | rfl | h
  · exact h1 c h
  · decide
  · exact h2 c h
  · decide
  · exact h3 c h

/-- Candidate whose email has a space after a matching substring. -/
def emailCex : RegistrationCandidate :=
  { name := "Jane Doe", email := "a@b.c d", password := "secret1",
    confirmPassword := "secret1", role := "coach", sport := "" }

/-- C7 counterexample: on the email a@b.c d, the code reports no format
error (its regex test searches for a matching substring), yet the email does
not match the pattern as the entire value, so an error is reported exactly
when the whole value fails the pattern is false. -/
theorem validateForm_email_whole_cex :
    (validateForm emailCex).email = none ∧
      ¬ wholeEmailPattern emailCex.email.data := by
  constructor
  · decide
  · intro h
    have hsp := wholeEmailPattern_all_nonWS h ' ' (by decide)
    exact absurd hsp (by decide)

/-- C7 amended: when the trimmed email is non-empty, the invalid-format
error is reported if and only if no substring of the email matches the
pattern token at-sign token dot token. -/
theorem validateForm_email_format (formData : RegistrationCandidate)
    (h : trimJS formData.email ≠ "") :
    ((validateForm formData).email = some "Please enter a valid email address" ↔
      ¬ substringEmailPattern formData.email.data) := by
  rw [← emailSearch_iff_substring]
  simp only [validateForm, if_neg h]
  by_cases hm : emailSearch formData.email.data = true
  · rw [if_pos hm]
    simp [hm]
  · rw [if_neg hm]
    simp [hm]

/-- Witness for the amended C7, on the concrete candidate `emailCex`. -/
theorem validateForm_email_format_witness :
    ((validateForm emailCex).email = some "Please enter a valid email address" ↔
      ¬ substringEmailPattern emailCex.email.data) :=
  validateForm_email_format emailCex (by decide)

/-- C8: every rule is evaluated and all triggered errors are reported
together; on the specification candidate the result carries exactly the
five expected errors and none for role. -/
theorem validateForm_all_rules :
    validateForm
      { name := "A", email := "bad", password := "123",
        confirmPassword := "1234", role := "player", sport := "" } =
      { name := some "Name must be at least 2 characters long",
        email := some "Please enter a valid email address",
        password := some "Password must be at least 6 characters long",
        confirmPassword := some "Passwords do not match",
        role := none,
        sport := some "Please select your sport" } := by
  decide

/-- Coach candidate of the specification with an empty sport field. -/
def janeCand : RegistrationCandidate :=
  { name := "Jane Doe", email := "jane@x.com", password := "secret1",
    confirmPassword := "secret1", role := "coach", sport := "" }

/-- C9: the sport error is reported exactly when the role is player and the
sport is unset; any other role gets no sport error; and the coach candidate
of the specification validates with no errors at all. -/
theorem validateForm_sport_rule (formData : RegistrationCandidate) :
    ((validateForm formData).sport = some "Please select your sport" ↔
      formData.role = "player" ∧ formData.sport = "") ∧
    (formData.role ≠ "player" → (validateForm formData).sport = none) ∧
    validateForm janeCand = noErrors := by
  refine ⟨?_, ?_, by decide⟩
  · by_cases hc : formData.role = "player" ∧ formData.sport = ""
    · simp [validateForm, hc]
    · simp [validateForm, hc]
  · intro h
    have hc : ¬ (formData.role = "player" ∧ formData.sport = "") := fun hh => h hh.1
    simp [validateForm, hc]

/-- Witness for C9: the coach role gets no sport error even with sport
unset. -/
theorem validateForm_sport_rule_witness :
    (validateForm janeCand).sport = none :=
  (validateForm_sport_rule janeCand).2.1 (by decide)

/-- C10: passwords are not trimmed: an all-whitespace password of length at
least 6, confirmed identically, produces no password and no confirmPassword
error, while an all-whitespace name or email is trimmed to empty and gets
its required error. -/
theorem validateForm_password_untrimmed (formData : RegistrationCandidate)
    (h1 : formData.password ≠ "") (h2 : 6 ≤ formData.password.length)
    (_h3 : ∀ c ∈ formData.password.data, jsIsSpace c = true)
    (h4 : formData.confirmPassword = formData.password) :
    (validateForm formData).password = none ∧
    (validateForm formData).confirmPassword = none ∧
    ((∀ c ∈ formData.name.data, jsIsSpace c = true) →
      (validateForm formData).name = some "Full name is required") ∧
    ((∀ c ∈ formData.email.data, jsIsSpace c = true) →
      (validateForm formData).email = some "Email is required") := by
  refine ⟨?_, ?_, ?_, ?_⟩
  · simp [validateForm, h1, not_lt.mpr h2]
  · simp [validateForm, h4, h1]
  · intro hn
    simp [validateForm, trimJS_eq_empty_of_all_space _ hn]
  · intro he
    simp [validateForm, trimJS_eq_empty_of_all_space _ he]

/-- Candidate whose password is six spaces, confirmed identically. -/
def spacePw : RegistrationCandidate :=
  { name := "Jane Doe", email := "jane@x.com", password := "      ",
    confirmPassword := "      ", role := "coach", sport := "" }

/-- Witness for C10 on the concrete all-whitespace password candidate. -/
theorem validateForm_password_untrimmed_witness :
    (validateForm spacePw).password = none ∧
      (validateForm spacePw).confirmPassword = none :=
  ⟨(validateForm_password_untrimmed spacePw (by decide) (by decide) (by decide)
      (by decide)).1,
   (validateForm_password_untrimmed spacePw (by decide) (by decide) (by decide)
      (by decide)).2.1⟩

end PlayerPerformance
